import Mathlib

/-!
# ecdsa-node: the ledger and signature pipeline of `server/index.js`

A shallow embedding of the Express handlers of `server/index.js`, of the key
manager of `server/middleware/keyGeneration.js` and of the address derivation of
`client/src/App.jsx`, followed by the properties proved about them.

Modelling conventions.

* A JavaScript number is a binary64 value. The handlers only add and subtract
  integer-valued numbers, so a number is embedded as `Num`: an integer, an infinity
  or `NaN`, and a sum is the exact integer sum rounded to the nearest binary64 value,
  ties to even. The two zeros are identified (no handler tells them apart).
* `balances` is a plain object: a read finds the object's own properties and then the
  members inherited from `Object.prototype`; an assignment creates an own property,
  except for the key `__proto__`.
* The third-party functions (`keccak256`, `utf8ToBytes`, `secp.sign`,
  `secp.recoverPublicKey`) are parameters, collected in `Lib`; the pair that the
  random `secp.keygen()` produces is an argument of the key manager.
  A function that may throw returns `Except String _`.
* A JavaScript string is a Lean `String`; all strings that are sliced here are
  ASCII, so UTF-16 code units and code points coincide.
-/

set_option exponentiation.threshold 2048

namespace EcdsaNode

/-! ## Bytes, hex, strings -/

/-- One element of a `Uint8Array`. -/
abbrev Byte := Fin 256

/-- A `Uint8Array`. -/
abbrev Bytes := List Byte

/-- The sixteen digits used by `toHex` (lowercase). -/
def hexChars : List Char :=
  ['0', '1', '2', '3', '4', '5', '6', '7', '8', '9', 'a', 'b', 'c', 'd', 'e', 'f']

/-- The hex digit of a nibble. -/
def hexDigit (n : Nat) : Char := hexChars.getD n '0'

/-- The two characters `i.toString(16).padStart(2, "0")` of one byte. -/
def byteHex (b : Byte) : List Char := [hexDigit (b.val / 16), hexDigit (b.val % 16)]

/-- The function `toHex` of `ethereum-cryptography/utils`: two lowercase hex digits per
byte, no prefix. -/
def toHex (bytes : Bytes) : String := ⟨bytes.flatMap byteHex⟩

/-- JavaScript `str.slice(start)`: a negative `start` counts from the end, and
out-of-range values are clamped. -/
def jsSlice (str : String) (start : Int) : String :=
  let len : Int := str.data.length
  let src : Int := if start < 0 then max (len + start) 0 else min start len
  ⟨str.data.drop src.toNat⟩

/-- JavaScript `str.startsWith(p)`. -/
def jsStartsWith (str p : String) : Bool := p.data.isPrefixOf str.data

/-! ## JavaScript numbers -/

/-- The spacing of the binary64 values around the magnitude `m`: the least power of two `u`
(starting from `u`, doubling at most `fuel` times) with `m < 2 ^ 53 * u`. -/
def ulpOf (fuel : Nat) (u : Nat) (m : Nat) : Nat :=
  match fuel with
  | 0 => u
  | fuel + 1 => if m < 2 ^ 53 * u then u else ulpOf fuel (2 * u) m

/-- The magnitude `m` rounded to the nearest multiple of its spacing, ties to the even
multiple. A result of `2 ^ 1024` or more stands for an overflow. -/
def roundNat (m : Nat) : Nat :=
  let u := ulpOf 1100 1 m
  let q := m / u
  let r := m % u
  if 2 * r < u then q * u
  else if u < 2 * r then (q + 1) * u
  else if q % 2 = 0 then q * u
  else (q + 1) * u

/-- An integer-valued JavaScript number. -/
inductive Num where
  | finite (n : Int)
  | posInf
  | negInf
  | nan
  deriving DecidableEq, Repr

/-- The number nearest to the integer `n`: what `JSON.parse` makes of an integer literal and
what an exact integer result of `+` or `-` is rounded to. -/
def Num.ofInt (n : Int) : Num :=
  let m := roundNat n.natAbs
  if 2 ^ 1024 ≤ m then (if n < 0 then .negInf else .posInf)
  else .finite (if n < 0 then -(m : Int) else (m : Int))

/-- Unary minus. -/
def Num.neg : Num → Num
  | .finite n => .finite (-n)
  | .posInf => .negInf
  | .negInf => .posInf
  | .nan => .nan

/-- The sum of two numbers. -/
def Num.add : Num → Num → Num
  | .finite a, .finite b => Num.ofInt (a + b)
  | .nan, _ => .nan
  | _, .nan => .nan
  | .posInf, .negInf => .nan
  | .negInf, .posInf => .nan
  | .posInf, _ => .posInf
  | _, .posInf => .posInf
  | .negInf, _ => .negInf
  | _, .negInf => .negInf

/-- The comparison `x < y` of two numbers; it is false when either is `NaN`. -/
def Num.lt : Num → Num → Bool
  | .nan, _ => false
  | _, .nan => false
  | .finite a, .finite b => decide (a < b)
  | .finite _, .posInf => true
  | .finite _, .negInf => false
  | .posInf, _ => false
  | .negInf, .negInf => false
  | .negInf, _ => true

/-- Whether a number is truthy: every number but `0` and `NaN`. -/
def Num.truthy : Num → Bool
  | .finite n => decide (n ≠ 0)
  | .posInf => true
  | .negInf => true
  | .nan => false

/-- A safe integer (`Number.isSafeInteger`): sums that stay safe are exact. -/
def SafeInt (n : Int) : Prop := -(2 ^ 53 : Int) < n ∧ n < 2 ^ 53

instance (n : Int) : Decidable (SafeInt n) := by
  unfold SafeInt
  infer_instance

/-! ## JavaScript values -/

/-- The values that a read of `balances[key]` can give. `member name` is the function or
object that `Object.prototype` holds under `name`. `text name appended` is the string made
of the string conversion of `member name` followed by the decimal renderings of the numbers
in `appended`: what `+=` makes of an inherited member. -/
inductive Value where
  | undefined
  | number (x : Num)
  | text (name : String) (appended : List Num)
  | member (name : String)
  deriving DecidableEq, Repr

/-- The conversion `ToNumber`: `undefined`, the inherited members and the strings made of
them are not numeric. -/
def Value.toNumber : Value → Num
  | .number x => x
  | .undefined => .nan
  | .text _ _ => .nan
  | .member _ => .nan

/-- Whether a value is truthy. The strings here are never empty. -/
def Value.truthy : Value → Bool
  | .undefined => false
  | .number x => x.truthy
  | .text _ _ => true
  | .member _ => true

/-- The expression `v || w`. -/
def Value.or (v w : Value) : Value := if v.truthy then v else w

/-- The expression `v + n` for a number `n`: a sum, or a concatenation when `v` is a
string, a function or an object. -/
def Value.plus (v : Value) (n : Num) : Value :=
  match v with
  | .number x => .number (x.add n)
  | .undefined => .number .nan
  | .text name appended => .text name (appended ++ [n])
  | .member name => .text name [n]

/-- The expression `v - n` for a number `n`. -/
def Value.minus (v : Value) (n : Num) : Value := .number (v.toNumber.add n.neg)

/-- The expression `v < w` where one side is a number. -/
def Value.lt (v w : Value) : Bool := v.toNumber.lt w.toNumber

/-- The number `0` as a value. -/
def Value.zero : Value := .number (.finite 0)

/-- The integer a value stands for, and `0` for a value that is not a finite number. -/
def Value.toInt : Value → Int
  | .number (.finite n) => n
  | _ => 0

/-! ## The ledger -/

/-- An address: the key type of `balances`. -/
abbrev Address := String

/-- The own properties of the object `balances` of `server/index.js`. -/
abbrev Balances := AList (fun _ : Address => Value)

/-- The initial `const balances = {}`. -/
def emptyBalances : Balances := ∅

/-- The property names of `Object.prototype`, which every plain object inherits. -/
def inheritedNames : List String :=
  ["constructor", "__defineGetter__", "__defineSetter__", "hasOwnProperty",
    "__lookupGetter__", "__lookupSetter__", "isPrototypeOf", "propertyIsEnumerable",
    "toString", "valueOf", "__proto__", "toLocaleString"]

/-- The read `balances[key]`: the own property, else the inherited member, else
`undefined`. -/
def getProp (balances : Balances) (key : String) : Value :=
  match balances.lookup key with
  | some v => v
  | none => if key ∈ inheritedNames then .member key else .undefined

/-- The assignment `balances[key] = v` of a number or a string: it creates or overwrites
the own property, except that the setter of `__proto__` ignores such a value. -/
def setProp (balances : Balances) (key : String) (v : Value) : Balances :=
  if key = "__proto__" then balances else balances.insert key v

/-- The expression `balances[address] || 0`, which `GET /balance/:address` answers. -/
def balanceOf (balances : Balances) (address : Address) : Value :=
  (getProp balances address).or Value.zero

/-- The function `setInitialBalance`: `if (!balances[address]) balances[address] = 0;`. -/
def setInitialBalance (balances : Balances) (address : Address) : Balances :=
  if (getProp balances address).truthy then balances
  else setProp balances address Value.zero

/-- The sum of `balanceOf` over the addresses that have an own entry, counting `0` for an
entry that does not read as a finite number. Every other address reads `0`, apart from
the names inherited from `Object.prototype`, which do not read as a number. -/
def total (balances : Balances) : Int :=
  (balances.keys.map fun a => (balanceOf balances a).toInt).sum

/-! ## HTTP responses -/

/-- The property keys of a JavaScript object: canonical array indices, and other names. -/
inductive PropertyKey where
  | index (i : Nat)
  | name (s : String)
  deriving DecidableEq, Repr

/-- A JSON object whose values are integers: its own properties in creation order. -/
abbrev JSObject := List (PropertyKey × Int)

/-- The objects the handlers pass to `res.send` and `res.json`: `balance v` is
`{ balance: v }`, whose serialization writes a finite number as it is, `NaN` and the
infinities as `null`, and drops a function. -/
inductive Body where
  | balance (balance : Value)
  | message (message : String)
  | error (error : String)
  | signature (signature : JSObject) (msg : String)
  | publicKey (publicKey : String)
  deriving DecidableEq, Repr

/-- A response: status code and JSON body (`res.send` and `res.json` answer 200). -/
structure Response where
  status : Nat
  body : Body
  deriving DecidableEq, Repr

/-! ## Objects on the wire -/

/-- The integer-keyed own properties of an object, in creation order. -/
def indexEntries (o : JSObject) : List (Nat × Int) :=
  o.filterMap fun e =>
    match e with
    | (PropertyKey.index i, v) => some (i, v)
    | (PropertyKey.name _, _) => none

/-- The values of the other properties of an object, in creation order. -/
def nameValues (o : JSObject) : List Int :=
  o.filterMap fun e =>
    match e with
    | (PropertyKey.index _, _) => none
    | (PropertyKey.name _, v) => some v

/-- JavaScript `Object.values(o)`: integer keys first, in ascending order, then the other
keys in creation order. -/
def objectValues (o : JSObject) : List Int :=
  ((indexEntries o).insertionSort (fun x y => x.1 ≤ y.1)).map Prod.snd ++ nameValues o

/-- The conversion of a number to an element of a `Uint8Array`: reduction modulo 256. -/
def toUint8 (v : Int) : Byte := ⟨(v % 256).toNat, by omega⟩

/-- JavaScript `Uint8Array.from(values)`. -/
def uint8ArrayFrom (values : List Int) : Bytes := values.map toUint8

/-- The own properties of a `Uint8Array` from index `i` on. -/
def spreadFrom (i : Nat) : Bytes → JSObject
  | [] => []
  | b :: bs => (PropertyKey.index i, (b.val : Int)) :: spreadFrom (i + 1) bs

/-- The object `{ ...sig }` of a `Uint8Array`, which is also the object that
`JSON.stringify` followed by `JSON.parse` makes of a `Uint8Array`: one property per index. -/
def spread (sig : Bytes) : JSObject := spreadFrom 0 sig

/-! ## The third-party functions -/

/-- The library functions the server calls. `sign d k` is
`secp.sign(d, k, { format: "recovered", prehash: false })` and `recoverPublicKey sig d` is
`secp.recoverPublicKey(sig, d, { prehash: false })`; both may throw. -/
structure Lib where
  utf8ToBytes : String → Bytes
  keccak256 : Bytes → Bytes
  sign : Bytes → Bytes → Except String Bytes
  recoverPublicKey : Bytes → Bytes → Except String Bytes

/-! ## Address derivation -/

/-- The server's derivation, in `recoverSender`: `0x${toHex(publicKey).slice(-40)}`. -/
def serverAddress (publicKey : Bytes) : Address :=
  "0x" ++ jsSlice (toHex publicKey) (-40)

/-- The client's derivation, in `getPublicKey` of `App.jsx`, from the hex public key that
`GET /` returns: strip a leading `0x`, take the last 40 characters, prepend `0x`. -/
def clientAddress (publicKey : String) : Address :=
  let fullKey := if jsStartsWith publicKey "0x" then jsSlice publicKey 2 else publicKey
  let lastFortyChars := jsSlice fullKey (-40)
  "0x" ++ lastFortyChars

/-! ## Handlers of `server/index.js` -/

/-- The function `recoverSender`: the sender address and its balance, or the error thrown
by the library. -/
def recoverSender (lib : Lib) (balances : Balances) (signature msgBytes : Bytes) :
    Except String (Address × Value) :=
  let msgHash := lib.keccak256 msgBytes
  match lib.recoverPublicKey signature msgHash with
  | .error e => .error e
  | .ok publicKey =>
    let sender := serverAddress publicKey
    .ok (sender, (getProp balances sender).or Value.zero)

/-- The handler `POST /addToBalance/:address`. -/
def addToBalance (balances : Balances) (address : Address) : Balances × Response :=
  let b1 := setInitialBalance balances address
  let b2 := setProp b1 address ((getProp b1 address).plus (.finite 20))
  (b2, ⟨200, .balance (getProp b2 address)⟩)

/-- The handler `GET /balance/:address`. -/
def getBalance (balances : Balances) (address : Address) : Response :=
  ⟨200, .balance ((getProp balances address).or Value.zero)⟩

/-- The body of a `POST /send` request whose amount is an integer literal. -/
structure SendBody where
  signature : JSObject
  msg : String
  recipient : Address
  amount : Int
  deriving DecidableEq, Repr

/-- The handler `POST /send`. An error thrown by the library is caught and answered with
status 400; the ledger is then as it was, since nothing was assigned yet. -/
def send (lib : Lib) (balances : Balances) (req : SendBody) : Balances × Response :=
  let amount := Num.ofInt req.amount
  let msgBytes := lib.utf8ToBytes req.msg
  let arraySign := uint8ArrayFrom (objectValues req.signature)
  match recoverSender lib balances arraySign msgBytes with
  | .error e => (balances, ⟨400, .error e⟩)
  | .ok (sender, balance) =>
    let b1 := setInitialBalance balances sender
    let b2 := setInitialBalance b1 req.recipient
    if balance.lt (.number amount) then
      (b2, ⟨400, .message "Not enough funds"⟩)
    else
      let b3 := setProp b2 sender ((getProp b2 sender).minus amount)
      let b4 := setProp b3 req.recipient ((getProp b3 req.recipient).plus amount)
      (b4, ⟨200, .balance (getProp b4 sender)⟩)

/-- The address that `POST /send` debits: the one recovered from `signature` and `msg`. -/
def recoveredSender (lib : Lib) (req : SendBody) : Except String Address :=
  (recoverSender lib emptyBalances (uint8ArrayFrom (objectValues req.signature))
    (lib.utf8ToBytes req.msg)).map Prod.fst

/-! ## Key file, `GET /` and `POST /signMessage` -/

/-- What `secp.keygen()` returns. -/
structure KeyPair where
  secretKey : Bytes
  publicKey : Bytes

/-- The parsed content of `keys.json`. -/
structure KeysFile where
  privateKey : JSObject
  publicKey : String

/-- The function `generateAndSaveKeys`, given the pair that `keygen()` produced: the file
written (the `Uint8Array` secret key is stringified as an object of its indices) and
the hex public key returned. -/
def generateAndSaveKeys (key : KeyPair) : KeysFile × String :=
  let keys : KeysFile := { privateKey := spread key.secretKey, publicKey := toHex key.publicKey }
  (keys, keys.publicKey)

/-- The handler `keyManager` of `GET /`: `file` is the parsed `keys.json` (`none` when
reading or parsing it throws, in which case a new pair is generated and written), `key` the
pair that `keygen()` produces if it is called. -/
def keyManager (file : Option KeysFile) (key : KeyPair) : Option KeysFile × Response :=
  match file with
  | some keys => (file, ⟨200, .publicKey keys.publicKey⟩)
  | none =>
    let r := generateAndSaveKeys key
    (some r.1, ⟨200, .publicKey r.2⟩)

/-- The handler `POST /signMessage`. -/
def signMessage (lib : Lib) (file : Option KeysFile) (msg : String) : Response :=
  match file with
  | none => ⟨500, .error "ENOENT: no such file or directory, open keys.json"⟩
  | some keys =>
    let privateKey := uint8ArrayFrom (objectValues keys.privateKey)
    let msgBytes := lib.utf8ToBytes msg
    let msgHash := lib.keccak256 msgBytes
    match lib.sign msgHash privateKey with
    | .error e => ⟨500, .error e⟩
    | .ok sig => ⟨200, .signature (spread sig) msg⟩

/-! ## Sequences of requests -/

/-- The requests that read or write the ledger. -/
inductive Request where
  | addToBalance (address : Address)
  | getBalance (address : Address)
  | send (body : SendBody)

/-- One request handled in a ledger state. -/
def step (lib : Lib) (balances : Balances) : Request → Balances × Response
  | .addToBalance address => addToBalance balances address
  | .getBalance address => (balances, getBalance balances address)
  | .send body => send lib balances body

/-- The ledger after a sequence of requests. -/
def run (lib : Lib) (balances : Balances) (reqs : List Request) : Balances :=
  reqs.foldl (fun b r => (step lib b r).1) balances

/-! ## A small library instance -/

/-- A small instance of `Lib`, used to run the handlers on concrete requests: a message is
encoded by its character codes, the digest is the message itself, a signature is the digest
followed by the secret key, and the public key of a secret key is that key. Recovery with
another digest yields other bytes. -/
def toyLib : Lib where
  utf8ToBytes := fun str => str.data.map fun c => Fin.ofNat c.toNat
  keccak256 := fun bytes => bytes
  sign := fun d k => .ok (d ++ k)
  recoverPublicKey := fun sig d => if d.isPrefixOf sig then .ok (sig.drop d.length) else .ok sig

/-- A `POST /send` body carrying the one-byte signature `key` over the empty message. Under
`toyLib` its sender is `0x` followed by the two hex digits of `key`. -/
def demoSendFrom (key : Byte) (recipient : Address) (amount : Int) : SendBody :=
  { signature := spread [key], msg := "", recipient := recipient, amount := amount }

/-- A `POST /send` body whose sender under `toyLib` is `0xaa`. -/
def demoSend (recipient : Address) (amount : Int) : SendBody :=
  demoSendFrom 170 recipient amount

/-- The integer 2 ^ 53, the first one whose successor is not a binary64 value. -/
def twoPow53 : Int := 2 ^ 53

/-- The ledger in which `0xaa` holds 15 and `0xbb` holds 5. -/
def demoLedger : Balances :=
  run toyLib emptyBalances [.addToBalance "0xaa", .send (demoSend "0xbb" 5)]

/-- The ledger in which `0xaa` holds 20, `0xbb` holds 2 ^ 53 and `0xcc` owes as much. -/
def demoLargeLedger : Balances :=
  run toyLib emptyBalances [.addToBalance "0xaa", .send (demoSendFrom 187 "0xcc" (-twoPow53))]

/-- The key pair of the demonstration: under `toyLib` the public key is the secret key. -/
def demoKeyPair : KeyPair := { secretKey := [170], publicKey := [170] }

/-- The file `keys.json` written for `demoKeyPair`. -/
def demoKeys : KeysFile := (generateAndSaveKeys demoKeyPair).1

/-- The message the client builds for a transfer of 5 from `0xaa` to `0xbb`. -/
def demoMsg : String := "0xaa|0xbb|5"

/-- The signature object that `POST /signMessage` returns for `demoMsg` under `toyLib`
with `demoKeys`. -/
def demoSignedTransfer : JSObject :=
  spread (toyLib.keccak256 (toyLib.utf8ToBytes demoMsg) ++ demoKeyPair.secretKey)

/-- A 33-byte public key encoding (compressed format: a marker byte and 32 bytes). -/
def demoPublicKey : Bytes := 2 :: List.replicate 32 171


/-! ## Lemmas on numbers -/

theorem ulpOf_of_lt (m : Nat) (h : m < 2 ^ 53) : ulpOf 1100 1 m = 1 := by
  rw [show (1100 : Nat) = 1099 + 1 from rfl, ulpOf, Nat.mul_one, if_pos h]

theorem roundNat_of_lt (m : Nat) (h : m < 2 ^ 53) : roundNat m = m := by
  unfold roundNat
  simp only [ulpOf_of_lt m h, Nat.mod_one, Nat.div_one, Nat.mul_one]
  simp

theorem ofInt_def (n : Int) :
    Num.ofInt n = if 2 ^ 1024 ≤ roundNat n.natAbs then (if n < 0 then .negInf else .posInf)
      else .finite (if n < 0 then -(roundNat n.natAbs : Int) else (roundNat n.natAbs : Int)) :=
  rfl

theorem ofInt_of_safe (n : Int) (h : SafeInt n) : Num.ofInt n = .finite n := by
  obtain ⟨h1, h2⟩ := h
  have hm : n.natAbs < 2 ^ 53 := by omega
  have hlt : ¬ 2 ^ 1024 ≤ n.natAbs :=
    not_le.mpr (lt_of_lt_of_le hm (Nat.pow_le_pow_right (by decide) (by decide)))
  rw [ofInt_def, roundNat_of_lt _ hm, if_neg hlt]
  congr 1
  split <;> omega

theorem add_finite (a b : Int) (h : SafeInt (a + b)) :
    Num.add (.finite a) (.finite b) = .finite (a + b) := by
  simp only [Num.add, ofInt_of_safe _ h]

theorem ulpOf_spec (m : Nat) (fuel : Nat) :
    ∀ u0, 0 < u0 → u0 ≤ ulpOf fuel u0 m ∧
      (ulpOf fuel u0 m = u0 ∨ 2 ^ 53 * ulpOf fuel u0 m ≤ 2 * m) := by
  induction fuel with
  | zero => intro u0 _; simp [ulpOf]
  | succ fuel ih =>
    intro u0 h0
    rw [ulpOf]
    by_cases hlt : m < 2 ^ 53 * u0
    · rw [if_pos hlt]
      exact ⟨le_refl _, Or.inl rfl⟩
    · rw [if_neg hlt]
      obtain ⟨h1, h2⟩ := ih (2 * u0) (by omega)
      refine ⟨by omega, Or.inr ?_⟩
      rcases h2 with h2 | h2
      · rw [h2]
        have := Nat.le_of_not_lt hlt
        calc 2 ^ 53 * (2 * u0) = 2 * (2 ^ 53 * u0) := by ring
          _ ≤ 2 * m := Nat.mul_le_mul_left 2 this
      · exact h2

theorem roundNat_pos (m : Nat) (h : 0 < m) : 0 < roundNat m := by
  obtain ⟨h1, h2⟩ := ulpOf_spec m 1100 1 (by decide)
  have hu : 0 < ulpOf 1100 1 m := by omega
  have hq : 0 < m / ulpOf 1100 1 m := by
    apply Nat.div_pos _ hu
    rcases h2 with h2 | h2
    · rw [h2]
      exact h
    · have h53 : (2 : Nat) ≤ 2 ^ 53 := by decide
      have := Nat.mul_le_mul_right (ulpOf 1100 1 m) h53
      omega
  have hqu : 0 < m / ulpOf 1100 1 m * ulpOf 1100 1 m := Nat.mul_pos hq hu
  have hqu1 : 0 < (m / ulpOf 1100 1 m + 1) * ulpOf 1100 1 m :=
    Nat.mul_pos (Nat.succ_pos _) hu
  unfold roundNat
  simp only
  split
  · exact hqu
  · split
    · exact hqu1
    · split
      · exact hqu
      · exact hqu1

theorem ofInt_of_neg (n : Int) (h : n < 0) :
    Num.ofInt n = .negInf ∨ ∃ k : Int, k < 0 ∧ Num.ofInt n = .finite k := by
  have hpos : 0 < roundNat n.natAbs := roundNat_pos _ (by omega)
  rw [ofInt_def]
  by_cases hover : 2 ^ 1024 ≤ roundNat n.natAbs
  · left
    rw [if_pos hover, if_pos h]
  · right
    refine ⟨-(roundNat n.natAbs : Int), by omega, ?_⟩
    rw [if_neg hover, if_pos h]

theorem ofInt_of_nonpos (n : Int) (h : n ≤ 0) :
    Num.ofInt n = .negInf ∨ ∃ k : Int, k ≤ 0 ∧ Num.ofInt n = .finite k := by
  rcases lt_or_eq_of_le h with h | h
  · rcases ofInt_of_neg n h with h1 | ⟨k, hk, h1⟩
    · exact Or.inl h1
    · exact Or.inr ⟨k, le_of_lt hk, h1⟩
  · exact Or.inr ⟨0, le_refl _, by rw [h]; exact ofInt_of_safe 0 (by decide)⟩

/-! ## Lemmas on values -/

theorem or_finite (n : Int) : (Value.number (.finite n)).or Value.zero = .number (.finite n) := by
  by_cases h : n = 0
  · subst h
    rfl
  · simp [Value.or, Value.truthy, Num.truthy, h]

theorem or_of_not_truthy {v : Value} (h : v.truthy = false) : v.or Value.zero = Value.zero := by
  simp [Value.or, h]

theorem or_of_truthy {v : Value} (h : v.truthy = true) : v.or Value.zero = v := by
  simp [Value.or, h]

theorem toInt_or_finite (n : Int) : ((Value.number (.finite n)).or Value.zero).toInt = n := by
  rw [or_finite]
  rfl

/-! ## Lemmas on the ledger -/

theorem proto_mem_inheritedNames : "__proto__" ∈ inheritedNames := by decide

theorem ne_proto_of_not_inherited {a : Address} (h : a ∉ inheritedNames) : a ≠ "__proto__" :=
  fun e => h (e ▸ proto_mem_inheritedNames)

theorem getProp_insert_self (b : Balances) (a : Address) (v : Value) :
    getProp (b.insert a v) a = v := by
  simp [getProp, AList.lookup_insert]

theorem getProp_insert_ne (b : Balances) {a c : Address} (v : Value) (h : c ≠ a) :
    getProp (b.insert a v) c = getProp b c := by
  simp [getProp, AList.lookup_insert_ne h]

theorem getProp_setProp_self (b : Balances) {a : Address} (v : Value) (ha : a ≠ "__proto__") :
    getProp (setProp b a v) a = v := by
  rw [setProp, if_neg ha, getProp_insert_self]

theorem getProp_setProp_ne (b : Balances) {a c : Address} (v : Value) (h : c ≠ a) :
    getProp (setProp b a v) c = getProp b c := by
  unfold setProp
  split
  · rfl
  · exact getProp_insert_ne b v h

theorem balanceOf_setProp_self (b : Balances) {a : Address} (v : Value) (ha : a ≠ "__proto__") :
    balanceOf (setProp b a v) a = v.or Value.zero := by
  rw [balanceOf, getProp_setProp_self b v ha]

theorem balanceOf_setProp_ne (b : Balances) {a c : Address} (v : Value) (h : c ≠ a) :
    balanceOf (setProp b a v) c = balanceOf b c := by
  rw [balanceOf, getProp_setProp_ne b v h, balanceOf]

theorem balanceOf_setInitialBalance (b : Balances) (a c : Address) :
    balanceOf (setInitialBalance b a) c = balanceOf b c := by
  unfold setInitialBalance
  cases ht : (getProp b a).truthy with
  | true => simp
  | false =>
    simp only [Bool.false_eq_true, if_false]
    by_cases hc : c = a
    · subst hc
      by_cases hp : c = "__proto__"
      · rw [setProp, if_pos hp]
      · rw [balanceOf_setProp_self b _ hp, balanceOf, or_of_not_truthy ht]
        rfl
    · exact balanceOf_setProp_ne b _ hc

theorem getProp_setInitialBalance_self (b : Balances) {a : Address} (ha : a ≠ "__proto__") :
    getProp (setInitialBalance b a) a = balanceOf b a := by
  unfold setInitialBalance
  cases ht : (getProp b a).truthy with
  | true =>
    simp only [if_true]
    rw [balanceOf, or_of_truthy ht]
  | false =>
    simp only [Bool.false_eq_true, if_false]
    rw [getProp_setProp_self b _ ha, balanceOf, or_of_not_truthy ht]

theorem getProp_setInitialBalance_ne (b : Balances) {a c : Address} (h : c ≠ a) :
    getProp (setInitialBalance b a) c = getProp b c := by
  unfold setInitialBalance
  split
  · rfl
  · exact getProp_setProp_ne b _ h

/-- After the two calls of `setInitialBalance` in `POST /send`, the raw entry of an address
that was materialised is its balance. -/
theorem getProp_materialised (b : Balances) {a : Address} (c : Address)
    (ha : a ≠ "__proto__") :
    getProp (setInitialBalance (setInitialBalance b a) c) a = balanceOf b a := by
  by_cases hc : a = c
  · subst hc
    rw [getProp_setInitialBalance_self _ ha, balanceOf_setInitialBalance]
  · rw [getProp_setInitialBalance_ne _ hc, getProp_setInitialBalance_self _ ha]

theorem getProp_materialised_snd (b : Balances) (a : Address) {c : Address}
    (hc : c ≠ "__proto__") :
    getProp (setInitialBalance (setInitialBalance b a) c) c = balanceOf b c := by
  rw [getProp_setInitialBalance_self _ hc, balanceOf_setInitialBalance]

theorem mem_setProp_of_mem (b : Balances) {a c : Address} (v : Value) (h : c ∈ b) :
    c ∈ setProp b a v := by
  unfold setProp
  split
  · exact h
  · simp [h]

theorem mem_setInitialBalance_of_mem (b : Balances) {a c : Address} (h : c ∈ b) :
    c ∈ setInitialBalance b a := by
  unfold setInitialBalance
  split
  · exact h
  · exact mem_setProp_of_mem b _ h

theorem mem_setInitialBalance (b : Balances) {a : Address} (ha : a ∉ inheritedNames) :
    a ∈ setInitialBalance b a := by
  unfold setInitialBalance
  cases ht : (getProp b a).truthy with
  | true =>
    simp only [if_true]
    cases hl : b.lookup a with
    | none => simp [getProp, hl, ha, Value.truthy] at ht
    | some v => exact AList.lookup_isSome.mp (by simp [hl])
  | false =>
    simp only [Bool.false_eq_true, if_false]
    rw [setProp, if_neg (ne_proto_of_not_inherited ha)]
    simp

theorem toInt_balanceOf_of_not_mem (b : Balances) {a : Address} (h : a ∉ b) :
    (balanceOf b a).toInt = 0 := by
  have hl : b.lookup a = none := AList.lookup_eq_none.mpr h
  unfold balanceOf getProp
  rw [hl]
  by_cases hi : a ∈ inheritedNames
  · simp [hi, Value.or, Value.truthy, Value.toInt]
  · simp [hi, Value.or, Value.truthy, Value.toInt, Value.zero]

theorem balanceOf_of_lookup (b : Balances) {a : Address} {v : Value}
    (h : b.lookup a = some v) : balanceOf b a = v.or Value.zero := by
  simp [balanceOf, getProp, h]

theorem sum_eq_dlookup_add_kerase (f : Value → Int) (a : Address)
    (l : List (Sigma fun _ : Address => Value)) :
    (l.map fun e => f e.2).sum
      = ((l.dlookup a).map f).getD 0 + ((l.kerase a).map fun e => f e.2).sum := by
  induction l with
  | nil => simp
  | cons e l ih =>
    obtain ⟨k, v⟩ := e
    by_cases hk : a = k
    · subst hk
      simp [List.dlookup_cons_eq, List.kerase_cons_eq]
    · rw [List.dlookup_cons_ne l ⟨k, v⟩ hk, List.kerase_cons_ne hk]
      simp only [List.map_cons, List.sum_cons]
      rw [ih]
      ring

theorem total_eq_sum_entries (b : Balances) :
    total b = (b.entries.map fun e => (e.2.or Value.zero).toInt).sum := by
  unfold total AList.keys List.keys
  rw [List.map_map]
  congr 1
  apply List.map_congr_left
  rintro ⟨k, v⟩ he
  have hl : b.lookup k = some v := AList.mem_lookup_iff.mpr he
  simp [balanceOf_of_lookup b hl]

theorem total_insert (b : Balances) (a : Address) (v : Value) :
    total (b.insert a v) = total b - (balanceOf b a).toInt + (v.or Value.zero).toInt := by
  have hb : (balanceOf b a).toInt
      = ((b.entries.dlookup a).map fun w => (w.or Value.zero).toInt).getD 0 := by
    cases hl : b.lookup a with
    | none =>
      have hl' : b.entries.dlookup a = none := hl
      rw [hl', toInt_balanceOf_of_not_mem b (AList.lookup_eq_none.mp hl)]
      rfl
    | some w =>
      have hl' : b.entries.dlookup a = some w := hl
      rw [hl', balanceOf_of_lookup b hl]
      rfl
  rw [total_eq_sum_entries, total_eq_sum_entries, AList.insert_entries,
    sum_eq_dlookup_add_kerase (fun w => (w.or Value.zero).toInt) a b.entries, hb]
  simp only [List.map_cons, List.sum_cons]
  ring

theorem total_setProp (b : Balances) {a : Address} (v : Value) (ha : a ≠ "__proto__") :
    total (setProp b a v) = total b - (balanceOf b a).toInt + (v.or Value.zero).toInt := by
  rw [setProp, if_neg ha, total_insert]

theorem total_setInitialBalance (b : Balances) (a : Address) :
    total (setInitialBalance b a) = total b := by
  unfold setInitialBalance
  cases ht : (getProp b a).truthy with
  | true => simp
  | false =>
    simp only [Bool.false_eq_true, if_false]
    by_cases hp : a = "__proto__"
    · rw [setProp, if_pos hp]
    · rw [total_setProp b _ hp, balanceOf, or_of_not_truthy ht]
      simp [Value.zero, Value.or, Value.truthy, Num.truthy, Value.toInt]

/-! ## The outcomes of `POST /send` -/

theorem serverAddress_not_inherited (publicKey : Bytes) :
    serverAddress publicKey ∉ inheritedNames := by
  intro hmem
  have hall : ∀ n ∈ inheritedNames, n.data.head? ≠ some '0' := by decide
  apply hall _ hmem
  unfold serverAddress
  rw [String.data_append]
  rfl

theorem recoveredSender_not_inherited (lib : Lib) (req : SendBody) {s : Address}
    (h : recoveredSender lib req = .ok s) : s ∉ inheritedNames := by
  unfold recoveredSender recoverSender at h
  cases hr : lib.recoverPublicKey (uint8ArrayFrom (objectValues req.signature))
      (lib.keccak256 (lib.utf8ToBytes req.msg)) with
  | error e => simp [hr, Except.map] at h
  | ok pk =>
    simp only [hr, Except.map, Except.ok.injEq] at h
    rw [← h]
    exact serverAddress_not_inherited pk

theorem recoverSender_of_recovered (lib : Lib) (b : Balances) (req : SendBody) {s : Address}
    (h : recoveredSender lib req = .ok s) :
    recoverSender lib b (uint8ArrayFrom (objectValues req.signature))
      (lib.utf8ToBytes req.msg) = .ok (s, balanceOf b s) := by
  unfold recoveredSender recoverSender at h
  unfold recoverSender
  cases hr : lib.recoverPublicKey (uint8ArrayFrom (objectValues req.signature))
      (lib.keccak256 (lib.utf8ToBytes req.msg)) with
  | error e => simp [hr, Except.map] at h
  | ok pk =>
    simp only [hr, Except.map, Except.ok.injEq] at h
    simp [hr, h, balanceOf]

theorem recoverSender_of_error (lib : Lib) (b : Balances) (req : SendBody) {e : String}
    (h : recoveredSender lib req = .error e) :
    recoverSender lib b (uint8ArrayFrom (objectValues req.signature))
      (lib.utf8ToBytes req.msg) = .error e := by
  unfold recoveredSender recoverSender at h
  unfold recoverSender
  cases hr : lib.recoverPublicKey (uint8ArrayFrom (objectValues req.signature))
      (lib.keccak256 (lib.utf8ToBytes req.msg)) with
  | error e' =>
    simp only [hr, Except.map, Except.error.injEq] at h
    simp [hr, h]
  | ok pk => simp [hr, Except.map] at h

theorem send_of_error (lib : Lib) (b : Balances) (req : SendBody) {e : String}
    (h : recoveredSender lib req = .error e) :
    send lib b req = (b, ⟨400, .error e⟩) := by
  unfold send
  simp only [recoverSender_of_error lib b req h]

theorem send_of_lt (lib : Lib) (b : Balances) (req : SendBody) {s : Address}
    (h : recoveredSender lib req = .ok s)
    (hlt : (balanceOf b s).lt (.number (Num.ofInt req.amount)) = true) :
    send lib b req =
      (setInitialBalance (setInitialBalance b s) req.recipient,
        ⟨400, .message "Not enough funds"⟩) := by
  unfold send
  simp only [recoverSender_of_recovered lib b req h, hlt, if_true]

theorem send_of_not_lt (lib : Lib) (b : Balances) (req : SendBody) {s : Address}
    (h : recoveredSender lib req = .ok s)
    (hge : (balanceOf b s).lt (.number (Num.ofInt req.amount)) = false) :
    send lib b req =
      (setProp (setProp (setInitialBalance (setInitialBalance b s) req.recipient) s
          ((getProp (setInitialBalance (setInitialBalance b s) req.recipient) s).minus
            (Num.ofInt req.amount))) req.recipient
          ((getProp (setProp (setInitialBalance (setInitialBalance b s) req.recipient) s
            ((getProp (setInitialBalance (setInitialBalance b s) req.recipient) s).minus
              (Num.ofInt req.amount))) req.recipient).plus (Num.ofInt req.amount)),
        ⟨200, .balance (getProp (setProp (setProp
          (setInitialBalance (setInitialBalance b s) req.recipient) s
          ((getProp (setInitialBalance (setInitialBalance b s) req.recipient) s).minus
            (Num.ofInt req.amount))) req.recipient
          ((getProp (setProp (setInitialBalance (setInitialBalance b s) req.recipient) s
            ((getProp (setInitialBalance (setInitialBalance b s) req.recipient) s).minus
              (Num.ofInt req.amount))) req.recipient).plus (Num.ofInt req.amount))) s)⟩) := by
  unfold send
  simp only [recoverSender_of_recovered lib b req h, hge, Bool.false_eq_true, if_false]

theorem minus_finite (x amount : Int) (ha : SafeInt amount) (hs : SafeInt (x - amount)) :
    (Value.number (.finite x)).minus (Num.ofInt amount) = .number (.finite (x - amount)) := by
  rw [Value.minus, ofInt_of_safe _ ha]
  simp only [Value.toNumber, Num.neg]
  rw [add_finite x (-amount) (by rwa [← sub_eq_add_neg]), sub_eq_add_neg]

theorem plus_finite (y amount : Int) (ha : SafeInt amount) (hs : SafeInt (y + amount)) :
    (Value.number (.finite y)).plus (Num.ofInt amount) = .number (.finite (y + amount)) := by
  rw [Value.plus, ofInt_of_safe _ ha, add_finite y amount hs]

/-- The accepted path of `POST /send` between two distinct addresses whose balances and
results are safe integers: the debit and the credit are exact. -/
theorem send_accepted (lib : Lib) (b : Balances) (req : SendBody) {s : Address} {x y : Int}
    (h : recoveredSender lib req = .ok s)
    (hge : (balanceOf b s).lt (.number (Num.ofInt req.amount)) = false)
    (hne : s ≠ req.recipient) (hr : req.recipient ∉ inheritedNames)
    (hx : balanceOf b s = .number (.finite x))
    (hy : balanceOf b req.recipient = .number (.finite y))
    (ha : SafeInt req.amount) (hxs : SafeInt (x - req.amount))
    (hys : SafeInt (y + req.amount)) :
    balanceOf (send lib b req).1 s = .number (.finite (x - req.amount)) ∧
      balanceOf (send lib b req).1 req.recipient = .number (.finite (y + req.amount)) ∧
      (∀ a, a ≠ s → a ≠ req.recipient → balanceOf (send lib b req).1 a = balanceOf b a) ∧
      (send lib b req).2 = ⟨200, .balance (.number (.finite (x - req.amount)))⟩ := by
  have hsp : s ≠ "__proto__" :=
    ne_proto_of_not_inherited (recoveredSender_not_inherited lib req h)
  have hrp : req.recipient ≠ "__proto__" := ne_proto_of_not_inherited hr
  have hrs : req.recipient ≠ s := Ne.symm hne
  rw [send_of_not_lt lib b req h hge]
  simp only [getProp_materialised b req.recipient hsp, hx, minus_finite x _ ha hxs,
    getProp_setProp_ne _ _ hrs, getProp_materialised_snd b s hrp, hy,
    plus_finite y _ ha hys]
  refine ⟨?_, ?_, fun a has har => ?_, ?_⟩
  · rw [balanceOf_setProp_ne _ _ hne, balanceOf_setProp_self _ _ hsp, or_finite]
  · rw [balanceOf_setProp_self _ _ hrp, or_finite]
  · rw [balanceOf_setProp_ne _ _ har, balanceOf_setProp_ne _ _ has,
      balanceOf_setInitialBalance, balanceOf_setInitialBalance]
  · rw [getProp_setProp_ne _ _ hne, getProp_setProp_self _ _ hsp]

theorem lt_finite_false {x : Int} {amount : Int} (ha : SafeInt amount) (hle : amount ≤ x) :
    (Value.number (.finite x)).lt (.number (Num.ofInt amount)) = false := by
  rw [ofInt_of_safe _ ha]
  simp only [Value.lt, Value.toNumber, Num.lt]
  exact decide_eq_false (not_lt.mpr hle)

theorem lt_nonpos_false {x : Int} {amount : Int} (hx : 0 ≤ x) (hle : amount ≤ 0) :
    (Value.number (.finite x)).lt (.number (Num.ofInt amount)) = false := by
  rcases ofInt_of_nonpos amount hle with h | ⟨k, hk, h⟩
  · rw [h]
    rfl
  · rw [h]
    simp only [Value.lt, Value.toNumber, Num.lt]
    exact decide_eq_false (by omega)

theorem balanceOf_empty {a : Address} (ha : a ∉ inheritedNames) :
    balanceOf emptyBalances a = .number (.finite 0) := by
  simp [balanceOf, getProp, emptyBalances, ha, Value.or, Value.truthy, Value.zero]

theorem lt_zero_of_add_zero_ofInt (n : Int) (h : n < 0) :
    ((Value.number ((Num.finite 0).add (Num.ofInt n))).or Value.zero).lt Value.zero = true := by
  have key : ∀ k : Int, k < 0 →
      ((Value.number (Num.ofInt k)).or Value.zero).lt Value.zero = true := by
    intro k hk
    rcases ofInt_of_neg k hk with h1 | ⟨j, hj, h1⟩
    · rw [h1]
      rfl
    · rw [h1, or_finite]
      simp only [Value.lt, Value.toNumber, Value.zero, Num.lt]
      exact decide_eq_true hj
  rcases ofInt_of_neg n h with h1 | ⟨k, hk, h1⟩
  · rw [h1]
    rfl
  · rw [h1]
    simp only [Num.add, zero_add]
    exact key k hk

/-! ## Properties of the ledger handlers -/

/-- C1. Insufficient funds: when the balance of the recovered sender `s` is below the
amount, `POST /send` answers 400 "Not enough funds" and the balance of every address is
what it was, although the entry of `s` now exists, and so does that of the recipient
unless its name is inherited from `Object.prototype`. -/
theorem send_insufficient_funds (lib : Lib) (b : Balances) (req : SendBody) (s : Address)
    (h : recoveredSender lib req = .ok s)
    (hlt : (balanceOf b s).lt (.number (Num.ofInt req.amount)) = true) :
    (send lib b req).2 = ⟨400, .message "Not enough funds"⟩ ∧
      (∀ a, balanceOf (send lib b req).1 a = balanceOf b a) ∧
      s ∈ (send lib b req).1 ∧
      (req.recipient ∉ inheritedNames → req.recipient ∈ (send lib b req).1) := by
  rw [send_of_lt lib b req h hlt]
  refine ⟨rfl, fun a => ?_, ?_, fun hr => ?_⟩
  · simp only [balanceOf_setInitialBalance]
  · exact mem_setInitialBalance_of_mem _
      (mem_setInitialBalance b (recoveredSender_not_inherited lib req h))
  · exact mem_setInitialBalance _ hr

/-- C1 at a concrete request: on the empty ledger a transfer of 5 from `0xaa` is refused. -/
theorem send_insufficient_funds_witness :
    recoveredSender toyLib (demoSend "0xbb" 5) = .ok "0xaa" ∧
      (send toyLib emptyBalances (demoSend "0xbb" 5)).2
        = ⟨400, .message "Not enough funds"⟩ ∧
      (∀ a, balanceOf (send toyLib emptyBalances (demoSend "0xbb" 5)).1 a
        = balanceOf emptyBalances a) ∧
      "0xaa" ∈ (send toyLib emptyBalances (demoSend "0xbb" 5)).1 ∧
      "0xbb" ∈ (send toyLib emptyBalances (demoSend "0xbb" 5)).1 := by
  have h := send_insufficient_funds toyLib emptyBalances (demoSend "0xbb" 5) "0xaa" rfl
    (by decide)
  exact ⟨rfl, h.1, h.2.1, h.2.2.1, h.2.2.2 (by decide)⟩

/-- C2 as stated fails. With `0xaa` at 15 and `0xbb` at 5 (sum 20), a transfer of
`-2 ^ 53` from `0xaa` to `0xbb` leaves the sum at 21, because `15 + 2 ^ 53` is rounded.
With `0xaa` at 20, a transfer of 5 to `__proto__` leaves the sum at 15, because the
credit is dropped. -/
theorem send_conserves_total_counterexample :
    total demoLedger = 20 ∧
      total (send toyLib demoLedger (demoSend "0xbb" (-twoPow53))).1 = 21 ∧
      total (addToBalance emptyBalances "0xaa").1 = 20 ∧
      total (send toyLib (addToBalance emptyBalances "0xaa").1 (demoSend "__proto__" 5)).1
        = 15 := by
  decide

/-- C2, amended. Conservation within the safe integers: when the recipient is not a name
inherited from `Object.prototype`, the balances of the recovered sender and of the
recipient are numbers, and the amount and the debited and credited results are safe
integers, `POST /send` leaves the sum of the balances as it was (sender and recipient
equal or not, request accepted or rejected). Moreover `POST /addToBalance` raises the sum by 20 for such an address, a
balance query leaves it, and a request whose recovery throws leaves the ledger as it was. -/
theorem send_conserves_total (lib : Lib) (b : Balances) (req : SendBody) (s : Address)
    (x y : Int) (h : recoveredSender lib req = .ok s)
    (hr : req.recipient ∉ inheritedNames)
    (hx : balanceOf b s = .number (.finite x))
    (hy : balanceOf b req.recipient = .number (.finite y))
    (ha : SafeInt req.amount)
    (hxa : SafeInt (x - req.amount)) (hya : SafeInt (y + req.amount)) :
    total (send lib b req).1 = total b ∧
      (∀ a z, a ∉ inheritedNames → balanceOf b a = .number (.finite z) → SafeInt (z + 20) →
        total (addToBalance b a).1 = total b + 20) ∧
      (∀ a, total (step lib b (.getBalance a)).1 = total b) ∧
      (∀ req' e, recoveredSender lib req' = .error e → (send lib b req').1 = b) := by
  have hsp : s ≠ "__proto__" :=
    ne_proto_of_not_inherited (recoveredSender_not_inherited lib req h)
  have hrp : req.recipient ≠ "__proto__" := ne_proto_of_not_inherited hr
  refine ⟨?_, fun a z hai hz hzs => ?_, fun a => rfl, fun req' e he => ?_⟩
  · cases hlt : (balanceOf b s).lt (.number (Num.ofInt req.amount)) with
    | true =>
      rw [send_of_lt lib b req h hlt]
      simp only [total_setInitialBalance]
    | false =>
      rw [send_of_not_lt lib b req h hlt]
      simp only [getProp_materialised b req.recipient hsp, hx, minus_finite x _ ha hxa]
      rw [total_setProp _ _ hrp, total_setProp _ _ hsp, total_setInitialBalance,
        total_setInitialBalance, balanceOf_setInitialBalance, balanceOf_setInitialBalance,
        hx, toInt_or_finite]
      by_cases hrs : req.recipient = s
      · have hxy : y = x := by
          rw [hrs, hx] at hy
          injection hy with hy
          injection hy with hy
          exact hy.symm
        have hxs : SafeInt x := by
          unfold SafeInt at hxa hya ⊢
          omega
        rw [hrs, balanceOf_setProp_self _ _ hsp, getProp_setProp_self _ _ hsp,
          toInt_or_finite,
          plus_finite (x - req.amount) _ ha (by rwa [sub_add_cancel]), toInt_or_finite]
        simp only [Value.toInt]
        ring
      · rw [balanceOf_setProp_ne _ _ hrs, getProp_setProp_ne _ _ hrs,
          balanceOf_setInitialBalance, balanceOf_setInitialBalance, hy,
          getProp_materialised_snd b s hrp, hy, plus_finite y _ ha hya, toInt_or_finite]
        simp only [Value.toInt]
        ring
  · have hap : a ≠ "__proto__" := ne_proto_of_not_inherited hai
    simp only [addToBalance]
    rw [total_setProp _ _ hap, total_setInitialBalance, balanceOf_setInitialBalance,
      getProp_setInitialBalance_self _ hap, hz]
    simp only [Value.plus]
    rw [add_finite z 20 hzs, toInt_or_finite]
    simp only [Value.toInt]
    ring
  · rw [send_of_error lib b req' he]

/-- C2, amended, at a concrete request: `0xaa` at 15 sends 5 to `0xbb` at 5, and the sum
stays 20. -/
theorem send_conserves_total_witness :
    total demoLedger = 20 ∧ total (send toyLib demoLedger (demoSend "0xbb" 5)).1 = 20 := by
  have h := (send_conserves_total toyLib demoLedger (demoSend "0xbb" 5) "0xaa" 15 5 rfl
    (by decide) (by decide) (by decide) (by decide) (by decide) (by decide)).1
  have h20 : total demoLedger = 20 := by decide
  exact ⟨h20, h.trans h20⟩

/-- C3 as stated fails. With `0xaa` at 20 and `0xbb` at `2 ^ 53`, a transfer of 1 from
`0xaa` to `0xbb` is accepted and debits `0xaa`, but `0xbb` stays at `2 ^ 53`. With `0xaa`
at 20, a transfer of 5 to `constructor` leaves a string there, not a number. -/
theorem send_success_counterexample :
    balanceOf demoLargeLedger "0xaa" = .number (.finite 20) ∧
      balanceOf demoLargeLedger "0xbb" = .number (.finite twoPow53) ∧
      (send toyLib demoLargeLedger (demoSend "0xbb" 1)).2
        = ⟨200, .balance (.number (.finite 19))⟩ ∧
      balanceOf (send toyLib demoLargeLedger (demoSend "0xbb" 1)).1 "0xbb"
        ≠ .number (.finite (twoPow53 + 1)) ∧
      balanceOf (send toyLib demoLargeLedger (demoSend "0xbb" 1)).1 "0xbb"
        = .number (.finite twoPow53) ∧
      balanceOf (send toyLib (addToBalance emptyBalances "0xaa").1
        (demoSend "constructor" 5)).1 "constructor" = .text "constructor" [.finite 5] := by
  decide

/-- C3, amended. Successful transfer within the safe integers: when the recovered sender
`s` differs from the recipient, the recipient is not a name inherited from
`Object.prototype`, `0 < amount ≤ balanceOf s`, and the balance of `s` and the credited
balance of the recipient are safe integers, `POST /send` lowers the balance of `s` by the
amount, raises that of the recipient by the amount, leaves every other balance, and answers
200 with the new balance of `s`. -/
theorem send_success (lib : Lib) (b : Balances) (req : SendBody) (s : Address) (x y : Int)
    (h : recoveredSender lib req = .ok s) (hne : s ≠ req.recipient)
    (hr : req.recipient ∉ inheritedNames)
    (hx : balanceOf b s = .number (.finite x))
    (hy : balanceOf b req.recipient = .number (.finite y))
    (hpos : 0 < req.amount) (hle : req.amount ≤ x)
    (hxs : SafeInt x) (hys : SafeInt (y + req.amount)) :
    balanceOf (send lib b req).1 s = .number (.finite (x - req.amount)) ∧
      balanceOf (send lib b req).1 req.recipient = .number (.finite (y + req.amount)) ∧
      (∀ a, a ≠ s → a ≠ req.recipient → balanceOf (send lib b req).1 a = balanceOf b a) ∧
      (send lib b req).2 = ⟨200, .balance (.number (.finite (x - req.amount)))⟩ := by
  have ha : SafeInt req.amount := by
    unfold SafeInt at hxs ⊢
    omega
  have hxa : SafeInt (x - req.amount) := by
    unfold SafeInt at hxs ⊢
    omega
  have hge : (balanceOf b s).lt (.number (Num.ofInt req.amount)) = false := by
    rw [hx]
    exact lt_finite_false ha hle
  exact send_accepted lib b req h hge hne hr hx hy ha hxa hys

/-- C3, amended, at a concrete request: `0xaa` holds 20 and sends 5 to `0xbb`, giving 15
and 5, and 15 is answered. -/
theorem send_success_witness :
    balanceOf (send toyLib (addToBalance emptyBalances "0xaa").1 (demoSend "0xbb" 5)).1 "0xaa"
        = .number (.finite 15) ∧
      balanceOf (send toyLib (addToBalance emptyBalances "0xaa").1 (demoSend "0xbb" 5)).1 "0xbb"
        = .number (.finite 5) ∧
      (send toyLib (addToBalance emptyBalances "0xaa").1 (demoSend "0xbb" 5)).2
        = ⟨200, .balance (.number (.finite 15))⟩ := by
  have h := send_success toyLib (addToBalance emptyBalances "0xaa").1 (demoSend "0xbb" 5)
    "0xaa" 20 0 rfl (by decide) (by decide) (by decide) (by decide) (by decide) (by decide)
    (by decide) (by decide)
  exact ⟨h.1, h.2.1, h.2.2.2⟩

/-- C8 as stated fails. On the empty ledger `GET /balance/constructor` answers the
inherited function (serialized as an empty object) and not 0; `POST
/addToBalance/constructor` answers a string; `POST /addToBalance/__proto__` credits
nothing; and at a balance of `2 ^ 58` the 20 added by `POST /addToBalance` are lost. -/
theorem faucet_and_default_balance_counterexample :
    getBalance emptyBalances "constructor" = ⟨200, .balance (.member "constructor")⟩ ∧
      getBalance emptyBalances "constructor" ≠ ⟨200, .balance (.number (.finite 0))⟩ ∧
      (addToBalance emptyBalances "constructor").2
        = ⟨200, .balance (.text "constructor" [.finite 20])⟩ ∧
      (addToBalance emptyBalances "__proto__").1.keys = [] ∧
      balanceOf (run toyLib emptyBalances [.send (demoSendFrom 187 "0xcc" (-(2 ^ 58)))]) "0xbb"
        = .number (.finite (2 ^ 58)) ∧
      balanceOf (addToBalance
        (run toyLib emptyBalances [.send (demoSendFrom 187 "0xcc" (-(2 ^ 58)))]) "0xbb").1
        "0xbb" = .number (.finite (2 ^ 58)) := by
  decide

/-- C8, amended. Default-zero balance and faucet within the safe integers: `GET
/balance/a` always answers 200 with `balances[a] || 0`. For an address `a` that is not a
name inherited from `Object.prototype` and whose balance is a number with a safe sum with
20: the answer is 0 when `a` has no entry, and `POST /addToBalance/a` raises the balance of
`a` by 20, answers 200 with the new balance and leaves the balance of every other
address. -/
theorem faucet_and_default_balance (b : Balances) (a : Address) (x : Int)
    (ha : a ∉ inheritedNames) (hx : balanceOf b a = .number (.finite x))
    (hs : SafeInt (x + 20)) :
    (∀ c, getBalance b c = ⟨200, .balance (balanceOf b c)⟩) ∧
      (a ∉ b → getBalance b a = ⟨200, .balance (.number (.finite 0))⟩) ∧
      balanceOf (addToBalance b a).1 a = .number (.finite (x + 20)) ∧
      (a ∉ b → balanceOf (addToBalance b a).1 a = .number (.finite 20)) ∧
      (addToBalance b a).2 = ⟨200, .balance (.number (.finite (x + 20)))⟩ ∧
      (∀ c, c ≠ a → balanceOf (addToBalance b a).1 c = balanceOf b c) := by
  have hap : a ≠ "__proto__" := ne_proto_of_not_inherited ha
  have h0 : a ∉ b → x = 0 := fun hmem => by
    have hl : b.lookup a = none := AList.lookup_eq_none.mpr hmem
    have hz : balanceOf b a = .number (.finite 0) := by
      simp [balanceOf, getProp, hl, ha, Value.or, Value.truthy, Value.zero]
    rw [hz] at hx
    injection hx with hx
    injection hx with hx
    exact hx.symm
  have hnew : (getProp (setInitialBalance b a) a).plus (.finite 20)
      = .number (.finite (x + 20)) := by
    rw [getProp_setInitialBalance_self b hap, hx]
    simp only [Value.plus]
    rw [add_finite x 20 hs]
  have h20 : balanceOf (addToBalance b a).1 a = .number (.finite (x + 20)) := by
    simp only [addToBalance]
    rw [hnew, balanceOf_setProp_self _ _ hap, or_finite]
  refine ⟨fun c => rfl, fun hmem => ?_, h20, fun hmem => ?_, ?_, fun c hc => ?_⟩
  · rw [getBalance, ← balanceOf, hx, h0 hmem]
  · rw [h20, h0 hmem]
    rfl
  · simp only [addToBalance]
    rw [hnew, getProp_setProp_self _ _ hap]
  · simp only [addToBalance]
    rw [balanceOf_setProp_ne _ _ hc, balanceOf_setInitialBalance]

/-- C8, amended, at concrete requests: the empty ledger reads 0 at `0xaa`, one faucet call
gives 20, a second answers 40. -/
theorem faucet_and_default_balance_witness :
    getBalance emptyBalances "0xaa" = ⟨200, .balance (.number (.finite 0))⟩ ∧
      balanceOf (addToBalance emptyBalances "0xaa").1 "0xaa" = .number (.finite 20) ∧
      (addToBalance (addToBalance emptyBalances "0xaa").1 "0xaa").2
        = ⟨200, .balance (.number (.finite 40))⟩ :=
  ⟨(faucet_and_default_balance emptyBalances "0xaa" 0 (by decide) (by decide)
      (by decide)).2.1 (by decide),
    (faucet_and_default_balance emptyBalances "0xaa" 0 (by decide) (by decide)
      (by decide)).2.2.2.1 (by decide),
    (faucet_and_default_balance (addToBalance emptyBalances "0xaa").1 "0xaa" 20 (by decide)
      (by decide) (by decide)).2.2.2.2.1⟩

/-! ## Where the server departs from the intended ledger -/

/-- C4, as the code behaves: an amount that is zero or negative is not rejected. When the
recovered sender `s` differs from the recipient and has a balance of at least 0,
`POST /send` answers 200. When moreover the recipient is not a name inherited from
`Object.prototype` and the results are safe integers, the answer carries the raised
balance of the sender, and the balance of the recipient changes by the (non-positive)
amount. -/
theorem send_accepts_nonpositive_amount (lib : Lib) (b : Balances) (req : SendBody)
    (s : Address) (x : Int) (h : recoveredSender lib req = .ok s) (hne : s ≠ req.recipient)
    (hle : req.amount ≤ 0) (hx : balanceOf b s = .number (.finite x)) (hb : 0 ≤ x) :
    (send lib b req).2.status = 200 ∧
      (∀ y, req.recipient ∉ inheritedNames →
        balanceOf b req.recipient = .number (.finite y) →
        SafeInt (x - req.amount) → SafeInt (y + req.amount) →
        (send lib b req).2 = ⟨200, .balance (.number (.finite (x - req.amount)))⟩ ∧
          balanceOf (send lib b req).1 s = .number (.finite (x - req.amount)) ∧
          balanceOf (send lib b req).1 req.recipient
            = .number (.finite (y + req.amount))) := by
  have hge : (balanceOf b s).lt (.number (Num.ofInt req.amount)) = false := by
    rw [hx]
    exact lt_nonpos_false hb hle
  refine ⟨?_, fun y hr hy hxa hya => ?_⟩
  · rw [send_of_not_lt lib b req h hge]
  · have ha : SafeInt req.amount := by
      unfold SafeInt at hxa ⊢
      omega
    have hacc := send_accepted lib b req h hge hne hr hx hy ha hxa hya
    exact ⟨hacc.2.2.2, hacc.1, hacc.2.1⟩

/-- C4 at concrete requests: amount 0 is answered 200, and amount -5 takes 5 from a
recipient holding 20. -/
theorem send_accepts_nonpositive_amount_witness :
    (send toyLib emptyBalances (demoSend "0xbb" 0)).2
        = ⟨200, .balance (.number (.finite 0))⟩ ∧
      (send toyLib (addToBalance emptyBalances "0xbb").1 (demoSend "0xbb" (-5))).2
        = ⟨200, .balance (.number (.finite 5))⟩ ∧
      balanceOf (send toyLib (addToBalance emptyBalances "0xbb").1 (demoSend "0xbb" (-5))).1
        "0xbb" = .number (.finite 15) :=
  ⟨((send_accepts_nonpositive_amount toyLib emptyBalances (demoSend "0xbb" 0) "0xaa" 0 rfl
      (by decide) (by decide) (by decide) (by decide)).2 0 (by decide) (by decide)
      (by decide) (by decide)).1,
    ((send_accepts_nonpositive_amount toyLib (addToBalance emptyBalances "0xbb").1
      (demoSend "0xbb" (-5)) "0xaa" 0 rfl (by decide) (by decide) (by decide)
      (by decide)).2 20 (by decide) (by decide) (by decide) (by decide)).1,
    ((send_accepts_nonpositive_amount toyLib (addToBalance emptyBalances "0xbb").1
      (demoSend "0xbb" (-5)) "0xaa" 0 rfl (by decide) (by decide) (by decide)
      (by decide)).2 20 (by decide) (by decide) (by decide) (by decide)).2.2⟩

/-- C5, as the code behaves: from the empty ledger, one `POST /send` with a negative amount
whose recovered sender differs from the recipient (a recipient that is not a name inherited
from `Object.prototype`) leaves the recipient with a balance below 0: the amount itself
when it is a safe integer. -/
theorem send_negative_amount_overdraws (lib : Lib) (req : SendBody) (s : Address)
    (h : recoveredSender lib req = .ok s) (hne : s ≠ req.recipient)
    (hr : req.recipient ∉ inheritedNames) (hneg : req.amount < 0) :
    (balanceOf (run lib emptyBalances [.send req]) req.recipient).lt Value.zero = true ∧
      (SafeInt req.amount →
        balanceOf (run lib emptyBalances [.send req]) req.recipient
          = .number (.finite req.amount)) := by
  have hs0 : balanceOf emptyBalances s = .number (.finite 0) :=
    balanceOf_empty (recoveredSender_not_inherited lib req h)
  have hr0 : balanceOf emptyBalances req.recipient = .number (.finite 0) := balanceOf_empty hr
  have hrp : req.recipient ≠ "__proto__" := ne_proto_of_not_inherited hr
  have hge : (balanceOf emptyBalances s).lt (.number (Num.ofInt req.amount)) = false := by
    rw [hs0]
    exact lt_nonpos_false (le_refl 0) (le_of_lt hneg)
  have hrun : balanceOf (run lib emptyBalances [.send req]) req.recipient
      = (Value.number ((Num.finite 0).add (Num.ofInt req.amount))).or Value.zero := by
    simp only [run, List.foldl_cons, List.foldl_nil, step]
    rw [send_of_not_lt lib emptyBalances req h hge, balanceOf_setProp_self _ _ hrp,
      getProp_setProp_ne _ _ (Ne.symm hne), getProp_materialised_snd _ s hrp, hr0]
    rfl
  refine ⟨?_, fun ha => ?_⟩
  · rw [hrun]
    exact lt_zero_of_add_zero_ofInt _ hneg
  · rw [hrun, ofInt_of_safe _ ha, add_finite 0 req.amount (by rwa [zero_add]), zero_add,
      or_finite]

/-- C5 at a concrete request: from the empty ledger a transfer of -5 leaves the recipient
at -5. -/
theorem send_negative_amount_overdraws_witness :
    balanceOf (run toyLib emptyBalances [.send (demoSend "0xbb" (-5))]) "0xbb"
        = .number (.finite (-5)) ∧
      (balanceOf (run toyLib emptyBalances [.send (demoSend "0xbb" (-5))]) "0xbb").lt
        Value.zero = true :=
  ⟨(send_negative_amount_overdraws toyLib (demoSend "0xbb" (-5)) "0xaa" rfl
      (by decide) (by decide) (by decide)).2 (by decide),
    (send_negative_amount_overdraws toyLib (demoSend "0xbb" (-5)) "0xaa" rfl
      (by decide) (by decide) (by decide)).1⟩

/-- C6, as the code behaves: the sender that `POST /send` recovers depends on the posted
signature and message only. When a signature and message recover to `s`, posting them
with any recipient and any amount within the balance of `s` debits `s` by that amount,
whatever recipient and amount the message names (the recipient not being a name inherited
from `Object.prototype`, and the balances involved being safe integers). -/
theorem send_debits_signer_for_unsigned_fields (lib : Lib) (b : Balances)
    (signature : JSObject) (msg : String) (recipient recipient' : Address)
    (amount amount' : Int) (s : Address) (x y : Int)
    (h : recoveredSender lib ⟨signature, msg, recipient, amount⟩ = .ok s)
    (hne : s ≠ recipient') (hr : recipient' ∉ inheritedNames)
    (hx : balanceOf b s = .number (.finite x))
    (hy : balanceOf b recipient' = .number (.finite y))
    (hle : amount' ≤ x) (ha : SafeInt amount')
    (hxa : SafeInt (x - amount')) (hya : SafeInt (y + amount')) :
    recoveredSender lib ⟨signature, msg, recipient', amount'⟩ = .ok s ∧
      balanceOf (send lib b ⟨signature, msg, recipient', amount'⟩).1 s
        = .number (.finite (x - amount')) ∧
      balanceOf (send lib b ⟨signature, msg, recipient', amount'⟩).1 recipient'
        = .number (.finite (y + amount')) := by
  have h' : recoveredSender lib ⟨signature, msg, recipient', amount'⟩ = .ok s := h
  have hge : (balanceOf b s).lt
      (.number (Num.ofInt (SendBody.mk signature msg recipient' amount').amount)) = false := by
    rw [hx]
    exact lt_finite_false ha hle
  have hacc := send_accepted lib b ⟨signature, msg, recipient', amount'⟩ h' hge hne hr hx hy
    ha hxa hya
  exact ⟨h', hacc.1, hacc.2.1⟩

/-- C6 at a concrete request: the signature obtained for the message naming amount 5 is
posted with amount 6, and the signer `0xaa` goes from 20 to 14. -/
theorem send_debits_signer_for_unsigned_fields_witness :
    signMessage toyLib (some demoKeys) demoMsg = ⟨200, .signature demoSignedTransfer demoMsg⟩ ∧
      recoveredSender toyLib ⟨demoSignedTransfer, demoMsg, "0xbb", 6⟩ = .ok "0xaa" ∧
      balanceOf (send toyLib (addToBalance emptyBalances "0xaa").1
        ⟨demoSignedTransfer, demoMsg, "0xbb", 6⟩).1 "0xaa" = .number (.finite 14) ∧
      balanceOf (send toyLib (addToBalance emptyBalances "0xaa").1
        ⟨demoSignedTransfer, demoMsg, "0xbb", 6⟩).1 "0xbb" = .number (.finite 6) := by
  have h := send_debits_signer_for_unsigned_fields toyLib (addToBalance emptyBalances "0xaa").1
    demoSignedTransfer demoMsg "0xbb" "0xbb" 5 6 "0xaa" 20 0 rfl (by decide) (by decide)
    (by decide) (by decide) (by decide) (by decide) (by decide) (by decide)
  exact ⟨rfl, h.1, h.2.1, h.2.2⟩

/-! ## The wire encoding of a `Uint8Array` -/

theorem toUint8_val (b : Byte) : toUint8 (b.val : Int) = b := by
  apply Fin.ext
  have hb := b.isLt
  simp only [toUint8]
  omega

theorem nameValues_spreadFrom (i : Nat) (sig : Bytes) : nameValues (spreadFrom i sig) = [] := by
  induction sig generalizing i with
  | nil => rfl
  | cons b bs ih =>
    have h := ih (i + 1)
    unfold nameValues at h ⊢
    simp only [spreadFrom, List.filterMap_cons]
    exact h

theorem indexEntries_spreadFrom_cons (i : Nat) (b : Byte) (bs : Bytes) :
    indexEntries (spreadFrom i (b :: bs)) =
      (i, (b.val : Int)) :: indexEntries (spreadFrom (i + 1) bs) := by
  simp only [indexEntries, spreadFrom, List.filterMap_cons]

theorem le_of_mem_indexEntries_spreadFrom (i : Nat) (sig : Bytes) :
    ∀ e ∈ indexEntries (spreadFrom i sig), i ≤ e.1 := by
  induction sig generalizing i with
  | nil => intro e he; simp [indexEntries, spreadFrom] at he
  | cons b bs ih =>
    intro e he
    rw [indexEntries_spreadFrom_cons, List.mem_cons] at he
    rcases he with rfl | he
    · exact le_refl _
    · exact Nat.le_of_succ_le (ih (i + 1) e he)

theorem sorted_indexEntries_spreadFrom (i : Nat) (sig : Bytes) :
    List.Sorted (fun x y : Nat × Int => x.1 ≤ y.1) (indexEntries (spreadFrom i sig)) := by
  induction sig generalizing i with
  | nil => simp [indexEntries, spreadFrom]
  | cons b bs ih =>
    rw [indexEntries_spreadFrom_cons, List.sorted_cons]
    exact ⟨fun e he => Nat.le_of_succ_le (le_of_mem_indexEntries_spreadFrom (i + 1) bs e he),
      ih (i + 1)⟩

theorem values_indexEntries_spreadFrom (i : Nat) (sig : Bytes) :
    (indexEntries (spreadFrom i sig)).map Prod.snd = sig.map fun b => (b.val : Int) := by
  induction sig generalizing i with
  | nil => rfl
  | cons b bs ih => rw [indexEntries_spreadFrom_cons, List.map_cons, ih (i + 1), List.map_cons]

theorem objectValues_spread (sig : Bytes) :
    objectValues (spread sig) = sig.map fun b => (b.val : Int) := by
  unfold objectValues spread
  rw [(sorted_indexEntries_spreadFrom 0 sig).insertionSort_eq, nameValues_spreadFrom,
    values_indexEntries_spreadFrom, List.append_nil]

theorem uint8ArrayFrom_objectValues_spread (sig : Bytes) :
    uint8ArrayFrom (objectValues (spread sig)) = sig := by
  rw [objectValues_spread, uint8ArrayFrom, List.map_map]
  conv_rhs => rw [← List.map_id sig]
  exact List.map_congr_left fun b _ => toUint8_val b

/-- C10. The wire encoding of a signature round-trips: for every byte array `sig`,
`Uint8Array.from(Object.values({ ...sig }))` is `sig` (same length, same bytes); and the
signature object of every successful `POST /signMessage` answer decodes to the byte array
that the library's `sign` returned. -/
theorem signature_wire_roundtrip (sig : Bytes) :
    uint8ArrayFrom (objectValues (spread sig)) = sig ∧
      (uint8ArrayFrom (objectValues (spread sig))).length = sig.length ∧
      (∀ (lib : Lib) (keys : KeysFile) (msg : String),
        lib.sign (lib.keccak256 (lib.utf8ToBytes msg))
            (uint8ArrayFrom (objectValues keys.privateKey)) = .ok sig →
          ∃ o, signMessage lib (some keys) msg = ⟨200, .signature o msg⟩ ∧
            uint8ArrayFrom (objectValues o) = sig) := by
  refine ⟨uint8ArrayFrom_objectValues_spread sig, ?_, fun lib keys msg h => ?_⟩
  · rw [uint8ArrayFrom_objectValues_spread]
  · refine ⟨spread sig, ?_, uint8ArrayFrom_objectValues_spread sig⟩
    simp only [signMessage, h]

/-! ## Address derivation -/

theorem hexDigit_mem (n : Nat) : hexDigit n ∈ hexChars := by
  unfold hexDigit
  by_cases h : n < 16
  · interval_cases n <;> decide
  · rw [List.getD_eq_default _ _ (by simpa [hexChars] using h)]
    decide

theorem hexDigit_ne_x (n : Nat) : hexDigit n ≠ 'x' := by
  intro h
  have hm := hexDigit_mem n
  rw [h] at hm
  revert hm
  decide

theorem length_flatMap_byteHex (l : Bytes) : (l.flatMap byteHex).length = 2 * l.length := by
  induction l with
  | nil => rfl
  | cons b bs ih =>
    rw [List.flatMap_cons, List.length_append, ih]
    simp only [byteHex, List.length_cons, List.length_nil]
    omega

theorem drop_flatMap_byteHex (k : Nat) (l : Bytes) :
    (l.flatMap byteHex).drop (2 * k) = (l.drop k).flatMap byteHex := by
  induction k generalizing l with
  | zero => rfl
  | succ k ih =>
    cases l with
    | nil => rfl
    | cons b bs =>
      have h2 : 2 * (k + 1) = 2 * k + 1 + 1 := by ring
      rw [h2, List.flatMap_cons]
      simp only [byteHex, List.cons_append, List.nil_append, List.drop_succ_cons]
      exact ih bs

theorem jsSlice_toHex (publicKey : Bytes) :
    jsSlice (toHex publicKey) (-40) = toHex (publicKey.drop (publicKey.length - 20)) := by
  have hk : (max ((((toHex publicKey).data.length : Nat) : Int) + -40) 0).toNat
      = 2 * (publicKey.length - 20) := by
    have hl : (toHex publicKey).data.length = 2 * publicKey.length :=
      length_flatMap_byteHex publicKey
    rw [hl]
    omega
  unfold jsSlice
  simp only [show ((-40 : Int) < 0) from by decide, if_true, hk]
  unfold toHex
  simp only [drop_flatMap_byteHex]

theorem jsStartsWith_toHex (publicKey : Bytes) : jsStartsWith (toHex publicKey) "0x" = false := by
  cases publicKey with
  | nil => rfl
  | cons b bs =>
    have hx : ('x' == hexDigit (b.val % 16)) = false := by
      simpa using Ne.symm (hexDigit_ne_x (b.val % 16))
    simp only [jsStartsWith, toHex, List.flatMap_cons, byteHex, List.cons_append,
      List.nil_append, List.isPrefixOf, hx, Bool.false_and, Bool.and_false]

theorem clientAddress_toHex (publicKey : Bytes) :
    clientAddress (toHex publicKey) = serverAddress publicKey := by
  unfold clientAddress serverAddress
  simp only [jsStartsWith_toHex, Bool.false_eq_true, if_false]

theorem mem_hexChars_of_mem_toHex (l : Bytes) : ∀ c ∈ (toHex l).data, c ∈ hexChars := by
  intro c hc
  simp only [toHex, List.mem_flatMap, byteHex, List.mem_cons, List.mem_singleton] at hc
  obtain ⟨b, _, hcb⟩ := hc
  simp only [List.not_mem_nil, or_false] at hcb
  rcases hcb with rfl | rfl <;> exact hexDigit_mem _

/-- C9. Address derivation: for a public-key encoding of at least 20 bytes, the server's
`0x${toHex(publicKey).slice(-40)}` and the client's derivation from the hex public key are
the same string: `0x` followed by the hex of the last 20 bytes, 42 characters long, its
last 40 characters being lowercase hex digits. -/
theorem address_derivation (publicKey : Bytes) (h : 20 ≤ publicKey.length) :
    serverAddress publicKey = "0x" ++ toHex (publicKey.drop (publicKey.length - 20)) ∧
      clientAddress (toHex publicKey) = serverAddress publicKey ∧
      (serverAddress publicKey).length = 42 ∧
      jsStartsWith (serverAddress publicKey) "0x" = true ∧
      (publicKey.drop (publicKey.length - 20)).length = 20 ∧
      (∀ c ∈ (jsSlice (serverAddress publicKey) 2).data, c ∈ hexChars) := by
  have hs : serverAddress publicKey
      = "0x" ++ toHex (publicKey.drop (publicKey.length - 20)) := by
    unfold serverAddress
    rw [jsSlice_toHex]
  have hlen : (publicKey.drop (publicKey.length - 20)).length = 20 := by
    rw [List.length_drop]
    omega
  have hdata : (serverAddress publicKey).data
      = '0' :: 'x' :: (toHex (publicKey.drop (publicKey.length - 20))).data := by
    rw [hs, String.data_append]
    rfl
  have hl42 : (serverAddress publicKey).data.length = 42 := by
    rw [hdata, List.length_cons, List.length_cons]
    simp only [toHex, length_flatMap_byteHex, hlen]
  refine ⟨hs, clientAddress_toHex publicKey, hl42, ?_, hlen, ?_⟩
  · simp [jsStartsWith, hdata, List.isPrefixOf]
  · intro c hc
    have h2 : (min (2 : Int) (((serverAddress publicKey).data.length : Nat) : Int)).toNat = 2 := by
      rw [hl42]
      rfl
    unfold jsSlice at hc
    simp only [show ¬ ((2 : Int) < 0) from by decide, if_false, h2] at hc
    rw [hdata] at hc
    exact mem_hexChars_of_mem_toHex _ c hc

/-- C9 at a 33-byte key: both derivations give `0x` and forty hex digits. -/
theorem address_derivation_witness :
    20 ≤ demoPublicKey.length ∧
      serverAddress demoPublicKey = "0xabababababababababababababababababababab" ∧
      clientAddress (toHex demoPublicKey) = "0xabababababababababababababababababababab" ∧
      (serverAddress demoPublicKey).length = 42 := by
  have h := address_derivation demoPublicKey (by decide)
  have hs : serverAddress demoPublicKey = "0xabababababababababababababababababababab" := by
    rw [h.1]
    decide
  exact ⟨by decide, hs, h.2.1.trans hs, h.2.2.1⟩

/-! ## Signing and recovering -/

/-- C7. Sign/recover round trip. Let `key` be the pair that `keygen()` produced when
`GET /` first wrote `keys.json`, and assume the library recovers the public key of `key`
from every signature made with its secret key over the same digest. Whenever the
library signs the digest of `msg` (giving `sig`), `POST /signMessage` answers 200 with
the object `{ ...sig }`, `GET /` answers the hex public key of `key` (on the first call
and on every later one), and the sender that `POST /send` recovers from that signature
object and `msg` is the address the client derives from that hex public key. -/
theorem sign_recover_roundtrip (lib : Lib) (key : KeyPair) (msg : String) (sig : Bytes)
    (hlib : ∀ d sg, lib.sign d key.secretKey = .ok sg →
      lib.recoverPublicKey sg d = .ok key.publicKey)
    (hsign : lib.sign (lib.keccak256 (lib.utf8ToBytes msg)) key.secretKey = .ok sig) :
    signMessage lib (keyManager none key).1 msg = ⟨200, .signature (spread sig) msg⟩ ∧
      (keyManager none key).2 = ⟨200, .publicKey (toHex key.publicKey)⟩ ∧
      (∀ key', (keyManager (keyManager none key).1 key').2
        = ⟨200, .publicKey (toHex key.publicKey)⟩) ∧
      (∀ recipient amount, recoveredSender lib ⟨spread sig, msg, recipient, amount⟩
        = .ok (clientAddress (toHex key.publicKey))) ∧
      clientAddress (toHex key.publicKey) = "0x" ++ jsSlice (toHex key.publicKey) (-40) := by
  refine ⟨?_, rfl, fun _ => rfl, fun recipient amount => ?_, ?_⟩
  · simp only [signMessage, keyManager, generateAndSaveKeys,
      uint8ArrayFrom_objectValues_spread, hsign]
  · simp only [recoveredSender, recoverSender, uint8ArrayFrom_objectValues_spread,
      hlib _ _ hsign, Except.map, clientAddress_toHex]
  · rw [clientAddress_toHex]
    rfl

/-- The library assumption of C7 holds of `toyLib` and `demoKeyPair`. -/
theorem toyLib_recovers (d sg : Bytes)
    (h : toyLib.sign d demoKeyPair.secretKey = .ok sg) :
    toyLib.recoverPublicKey sg d = .ok demoKeyPair.publicKey := by
  simp only [toyLib, Except.ok.injEq] at h
  subst h
  have hp : d.isPrefixOf (d ++ demoKeyPair.secretKey) = true :=
    List.isPrefixOf_iff_prefix.mpr (List.prefix_append _ _)
  simp only [toyLib, hp, if_true, List.drop_left]
  rfl

/-- C7 under `toyLib`: the signature returned for `demoMsg` recovers to the address of the stored key. -/
theorem sign_recover_roundtrip_witness :
    signMessage toyLib (keyManager none demoKeyPair).1 demoMsg
        = ⟨200, .signature demoSignedTransfer demoMsg⟩ ∧
      (keyManager none demoKeyPair).2 = ⟨200, .publicKey "aa"⟩ ∧
      recoveredSender toyLib ⟨demoSignedTransfer, demoMsg, "0xbb", 5⟩ = .ok "0xaa" ∧
      clientAddress "aa" = "0xaa" := by
  have h := sign_recover_roundtrip toyLib demoKeyPair demoMsg
    (toyLib.keccak256 (toyLib.utf8ToBytes demoMsg) ++ demoKeyPair.secretKey)
    toyLib_recovers rfl
  exact ⟨h.1, h.2.1, h.2.2.2.1 "0xbb" 5, rfl⟩

end EcdsaNode
